import Mathlib

/-!
Verification of the geometric primitive kernel (line-segment and triangle
cells) of the VTK repository: `vtkLine` and `vtkTriangle`.

Coordinates are modelled as real numbers; `double` arrays of length 3
become the structure `Vec3`, 2D points become `Vec2`.  Member functions
whose bodies appear inline in the headers under `src/` are translated
directly from that source; member functions whose bodies live in missing
`.cxx` files are modelled from the specification (each such definition
carries a doc comment starting with `Modelled from the spec:`).
-/

namespace VTK

/-- A 3-component double vector (`double[3]`), modelled over `ℝ`. -/
@[ext]
structure Vec3 where
  x : ℝ
  y : ℝ
  z : ℝ

namespace Vec3

instance : Add Vec3 := ⟨fun a b => ⟨a.x + b.x, a.y + b.y, a.z + b.z⟩⟩

instance : Sub Vec3 := ⟨fun a b => ⟨a.x - b.x, a.y - b.y, a.z - b.z⟩⟩

instance : SMul ℝ Vec3 := ⟨fun r a => ⟨r * a.x, r * a.y, r * a.z⟩⟩

instance : Zero Vec3 := ⟨⟨0, 0, 0⟩⟩

@[simp] theorem add_x (a b : Vec3) : (a + b).x = a.x + b.x := rfl

@[simp] theorem add_y (a b : Vec3) : (a + b).y = a.y + b.y := rfl

@[simp] theorem add_z (a b : Vec3) : (a + b).z = a.z + b.z := rfl

@[simp] theorem sub_x (a b : Vec3) : (a - b).x = a.x - b.x := rfl

@[simp] theorem sub_y (a b : Vec3) : (a - b).y = a.y - b.y := rfl

@[simp] theorem sub_z (a b : Vec3) : (a - b).z = a.z - b.z := rfl

@[simp] theorem smul_x (r : ℝ) (a : Vec3) : (r • a).x = r * a.x := rfl

@[simp] theorem smul_y (r : ℝ) (a : Vec3) : (r • a).y = r * a.y := rfl

@[simp] theorem smul_z (r : ℝ) (a : Vec3) : (r • a).z = r * a.z := rfl

@[simp] theorem zero_x : (0 : Vec3).x = 0 := rfl

@[simp] theorem zero_y : (0 : Vec3).y = 0 := rfl

@[simp] theorem zero_z : (0 : Vec3).z = 0 := rfl

/-- Euclidean dot product of two 3-vectors (`vtkMath::Dot`). -/
def dot (a b : Vec3) : ℝ := a.x * b.x + a.y * b.y + a.z * b.z

/-- Squared Euclidean norm. -/
def norm2 (a : Vec3) : ℝ := dot a a

/-- The textbook cross product of two 3-vectors. -/
def cross (a b : Vec3) : Vec3 :=
  ⟨a.y * b.z - a.z * b.y, a.z * b.x - a.x * b.z, a.x * b.y - a.y * b.x⟩

theorem norm2_nonneg (a : Vec3) : 0 ≤ norm2 a := by
  unfold norm2 dot
  nlinarith [sq_nonneg a.x, sq_nonneg a.y, sq_nonneg a.z]

theorem norm2_eq_zero_iff (a : Vec3) : norm2 a = 0 ↔ a = 0 := by
  constructor
  · intro h
    unfold norm2 dot at h
    have hx : a.x = 0 := by nlinarith [sq_nonneg a.x, sq_nonneg a.y, sq_nonneg a.z]
    have hy : a.y = 0 := by nlinarith [sq_nonneg a.x, sq_nonneg a.y, sq_nonneg a.z]
    have hz : a.z = 0 := by nlinarith [sq_nonneg a.x, sq_nonneg a.y, sq_nonneg a.z]
    ext
    · rw [hx, zero_x]
    · rw [hy, zero_y]
    · rw [hz, zero_z]
  · intro h
    subst h
    unfold norm2 dot
    simp

end Vec3

/-- A 2-component double vector (`double[2]`), modelled over `ℝ`. -/
@[ext]
structure Vec2 where
  x : ℝ
  y : ℝ

namespace Vec2

instance : Add Vec2 := ⟨fun a b => ⟨a.x + b.x, a.y + b.y⟩⟩

instance : Sub Vec2 := ⟨fun a b => ⟨a.x - b.x, a.y - b.y⟩⟩

instance : SMul ℝ Vec2 := ⟨fun r a => ⟨r * a.x, r * a.y⟩⟩

instance : Zero Vec2 := ⟨⟨0, 0⟩⟩

@[simp] theorem add_x' (a b : Vec2) : (a + b).x = a.x + b.x := rfl

@[simp] theorem add_y' (a b : Vec2) : (a + b).y = a.y + b.y := rfl

@[simp] theorem sub_x' (a b : Vec2) : (a - b).x = a.x - b.x := rfl

@[simp] theorem sub_y' (a b : Vec2) : (a - b).y = a.y - b.y := rfl

@[simp] theorem smul_x' (r : ℝ) (a : Vec2) : (r • a).x = r * a.x := rfl

@[simp] theorem smul_y' (r : ℝ) (a : Vec2) : (r • a).y = r * a.y := rfl

@[simp] theorem zero_x' : (0 : Vec2).x = 0 := rfl

@[simp] theorem zero_y' : (0 : Vec2).y = 0 := rfl

end Vec2

/-- Clamp a real parameter into the interval `[0,1]`. -/
noncomputable def clamp01 (r : ℝ) : ℝ := max 0 (min 1 r)

theorem clamp01_mem (r : ℝ) : 0 ≤ clamp01 r ∧ clamp01 r ≤ 1 := by
  unfold clamp01
  refine ⟨le_max_left 0 _, ?_⟩
  apply max_le zero_le_one
  exact min_le_left 1 r

theorem clamp01_of_mem {r : ℝ} (h0 : 0 ≤ r) (h1 : r ≤ 1) : clamp01 r = r := by
  unfold clamp01
  rw [min_eq_right h1, max_eq_right h0]

namespace vtkTriangle

/-- Translated from `src/Common/DataModel/vtkTriangle.h`
(`vtkTriangle::ComputeNormalDirection`): the un-normalized triangle
normal from three points, computed from the two edge vectors
`a = v3 - v2` and `b = v1 - v2`. -/
def ComputeNormalDirection (v1 v2 v3 : Vec3) : Vec3 :=
  let ax := v3.x - v2.x
  let ay := v3.y - v2.y
  let az := v3.z - v2.z
  let bx := v1.x - v2.x
  let by' := v1.y - v2.y
  let bz := v1.z - v2.z
  ⟨ay * bz - az * by', az * bx - ax * bz, ax * by' - ay * bx⟩

/-- Translated from `src/Common/DataModel/vtkTriangle.h`
(`vtkTriangle::ComputeNormal`): the normal direction, divided by its
length when that length is nonzero, left untouched otherwise. -/
noncomputable def ComputeNormal (v1 v2 v3 : Vec3) : Vec3 :=
  let n := ComputeNormalDirection v1 v2 v3
  let length := Real.sqrt (n.x * n.x + n.y * n.y + n.z * n.z)
  if length ≠ 0 then ⟨n.x / length, n.y / length, n.z / length⟩ else n

/-- Modelled from the spec: `vtkMath::Norm` (vtkMath.h is not under
`src/`), the Euclidean magnitude of a 3-vector. -/
noncomputable def mathNorm (a : Vec3) : ℝ := Real.sqrt (Vec3.norm2 a)

/-- Translated from `src/Common/DataModel/vtkTriangle.h`
(`vtkTriangle::TriangleArea`): half the magnitude of the
normal-direction vector. -/
noncomputable def TriangleArea (p1 p2 p3 : Vec3) : ℝ :=
  0.5 * mathNorm (ComputeNormalDirection p1 p2 p3)

/-- Translated from `src/Common/DataModel/vtkTriangle.h`
(`vtkTriangle::GetParametricCenter`): overwrites `pcoords` with
`(1/3, 1/3, 0)` and returns 0. -/
noncomputable def GetParametricCenter (pcoords : Vec3) : Vec3 × ℤ :=
  (⟨1 / 3, 1 / 3, 0⟩, 0)

end vtkTriangle

namespace vtkLine

/-- Translated from `src/unnamed/part_001` (`vtkLine::GetParametricCenter`):
overwrites `pcoords` with `(0.5, 0, 0)` and returns 0. -/
noncomputable def GetParametricCenter (pcoords : Vec3) : Vec3 × ℤ :=
  (⟨0.5, 0, 0⟩, 0)

/-- Result of `vtkLine::EvaluatePosition`: the parametric coordinate
(`pcoords[0]`), the closest point and the squared distance. -/
structure EvalPosResult where
  t : ℝ
  closestPoint : Vec3
  dist2 : ℝ

/-- Modelled from the spec: `vtkLine::EvaluatePosition` (its body is in a
`.cxx` file not under `src/`).  Projects `x` onto the infinite line through
`(p1,p2)`, clamps the parameter into `[0,1]`, takes the clamped point on the
finite segment as the closest point and returns the squared Euclidean
distance to it; in the degenerate case `p1 == p2` the segment is treated as
a point and `t = 0`. -/
noncomputable def EvaluatePosition (x p1 p2 : Vec3) : EvalPosResult :=
  let p21 := p2 - p1
  let den := Vec3.dot p21 p21
  let tRaw := if den ≠ 0 then Vec3.dot p21 (x - p1) / den else 0
  let t := clamp01 tRaw
  let cp := p1 + t • p21
  ⟨t, cp, Vec3.norm2 (x - cp)⟩

/-- Modelled from the spec: the `vtkLine::DistanceToLine` overload with a
`t` output (its body is in a `.cxx` file not under `src/`).  Returns
`(dist2, t, closestPoint)`: `t` is the same unclamped projection parameter
as in `EvaluatePosition`; the closest point lies within the finite segment;
`dist2` is the squared distance from `x` to that closest point. -/
noncomputable def DistanceToLine (x p1 p2 : Vec3) : ℝ × ℝ × Vec3 :=
  let p21 := p2 - p1
  let t := Vec3.dot p21 (x - p1) / Vec3.dot p21 p21
  let closest := p1 + clamp01 t • p21
  (Vec3.norm2 (x - closest), t, closest)

/-- Modelled from the spec: the `vtkLine::DistanceToLine` overload without a
`t` output (its body is in a `.cxx` file not under `src/`): the squared
distance from `x` to the infinite line through `(p1,p2)`, computed as the
squared distance to the unclamped projection of `x` onto that line. -/
noncomputable def DistanceToLineSimple (x p1 p2 : Vec3) : ℝ :=
  let p21 := p2 - p1
  let t := Vec3.dot p21 (x - p1) / Vec3.dot p21 p21
  Vec3.norm2 (x - (p1 + t • p21))

/-- Result of the pairwise line/segment distance computations: the squared
distance, the two closest points and their parametric coordinates. -/
structure LinesResult where
  dist2 : ℝ
  closestPt1 : Vec3
  closestPt2 : Vec3
  t1 : ℝ
  t2 : ℝ

/-- Modelled from the spec: `vtkLine::DistanceBetweenLines` (its body is in
a `.cxx` file not under `src/`).  Solves the 2×2 linear system built from
the dot products of the direction vectors for the closest approach of the
two infinite lines; when the system is singular (parallel lines, determinant
below a relative tolerance) it falls back to evaluating the endpoint `l0`
against the other line via `DistanceToLine` (`t1 = 0`, `t2` the projection
parameter of `l0` onto the line `(m0,m1)`) instead of dividing by the
near-zero determinant. -/
noncomputable def DistanceBetweenLines (l0 l1 m0 m1 : Vec3) : LinesResult :=
  let u := l1 - l0
  let v := m1 - m0
  let w := l0 - m0
  let a := Vec3.dot u u
  let b := Vec3.dot u v
  let c := Vec3.dot v v
  let den := a * c - b * b
  let t1 := if den < 1e-6 * a * c then 0 else
    (b * Vec3.dot v w - c * Vec3.dot u w) / den
  let t2 := if den < 1e-6 * a * c then (DistanceToLine l0 m0 m1).2.1 else
    (a * Vec3.dot v w - b * Vec3.dot u w) / den
  let cp1 := l0 + t1 • u
  let cp2 := m0 + t2 • v
  ⟨Vec3.norm2 (cp1 - cp2), cp1, cp2, t1, t2⟩

/-- Squared distance between the point of parameter `p.1` on the segment
`(l0,l1)` and the point of parameter `p.2` on the segment `(m0,m1)`: the
convex quadratic objective of the segment–segment closest-point problem. -/
noncomputable def segQ (l0 l1 m0 m1 : Vec3) (p : ℝ × ℝ) : ℝ :=
  Vec3.norm2 ((l0 - m0) + p.1 • (l1 - l0) - p.2 • (m1 - m0))

/-- Determinant `a*c - b*b` of the 2×2 linear system of the closest-approach
problem, built from the dot products of the two direction vectors. -/
def segDet (l0 l1 m0 m1 : Vec3) : ℝ :=
  Vec3.dot (l1 - l0) (l1 - l0) * Vec3.dot (m1 - m0) (m1 - m0) -
    Vec3.dot (l1 - l0) (m1 - m0) * Vec3.dot (l1 - l0) (m1 - m0)

/-- The unconstrained critical point of `segQ` (the infinite-line closest
approach), by Cramer's rule on the 2×2 system. -/
noncomputable def segInterior (l0 l1 m0 m1 : Vec3) : ℝ × ℝ :=
  ((Vec3.dot (l1 - l0) (m1 - m0) * Vec3.dot (m1 - m0) (l0 - m0) -
      Vec3.dot (m1 - m0) (m1 - m0) * Vec3.dot (l1 - l0) (l0 - m0)) / segDet l0 l1 m0 m1,
   (Vec3.dot (l1 - l0) (l1 - l0) * Vec3.dot (m1 - m0) (l0 - m0) -
      Vec3.dot (l1 - l0) (m1 - m0) * Vec3.dot (l1 - l0) (l0 - m0)) / segDet l0 l1 m0 m1)

/-- Of two candidate parameter pairs, the one of smaller objective value. -/
noncomputable def segPick (l0 l1 m0 m1 : Vec3) (p q : ℝ × ℝ) : ℝ × ℝ :=
  if segQ l0 l1 m0 m1 q < segQ l0 l1 m0 m1 p then q else p

/-- Boundary candidate on the edge `s = 0` of the unit square: the 1D
optimum in `t`, clamped into `[0,1]`. -/
noncomputable def segCand0 (l0 l1 m0 m1 : Vec3) : ℝ × ℝ :=
  (0, clamp01 (Vec3.dot (m1 - m0) (l0 - m0) / Vec3.dot (m1 - m0) (m1 - m0)))

/-- Boundary candidate on the edge `s = 1` of the unit square. -/
noncomputable def segCand1 (l0 l1 m0 m1 : Vec3) : ℝ × ℝ :=
  (1, clamp01 ((Vec3.dot (m1 - m0) (l0 - m0) + Vec3.dot (l1 - l0) (m1 - m0)) /
    Vec3.dot (m1 - m0) (m1 - m0)))

/-- Boundary candidate on the edge `t = 0` of the unit square. -/
noncomputable def segCand2 (l0 l1 m0 m1 : Vec3) : ℝ × ℝ :=
  (clamp01 (-(Vec3.dot (l1 - l0) (l0 - m0)) / Vec3.dot (l1 - l0) (l1 - l0)), 0)

/-- Boundary candidate on the edge `t = 1` of the unit square. -/
noncomputable def segCand3 (l0 l1 m0 m1 : Vec3) : ℝ × ℝ :=
  (clamp01 ((Vec3.dot (l1 - l0) (m1 - m0) - Vec3.dot (l1 - l0) (l0 - m0)) /
    Vec3.dot (l1 - l0) (l1 - l0)), 1)

/-- The best of the four boundary candidates. -/
noncomputable def segBestEdges (l0 l1 m0 m1 : Vec3) : ℝ × ℝ :=
  segPick l0 l1 m0 m1
    (segPick l0 l1 m0 m1
      (segPick l0 l1 m0 m1 (segCand0 l0 l1 m0 m1) (segCand1 l0 l1 m0 m1))
      (segCand2 l0 l1 m0 m1))
    (segCand3 l0 l1 m0 m1)

/-- The parameter pair retained by the segment–segment distance: the
unconstrained optimum when it is well defined and falls inside the unit
square, otherwise (or if better) the best re-solved boundary candidate. -/
noncomputable def segBest (l0 l1 m0 m1 : Vec3) : ℝ × ℝ :=
  if segDet l0 l1 m0 m1 ≠ 0 ∧
      0 ≤ (segInterior l0 l1 m0 m1).1 ∧ (segInterior l0 l1 m0 m1).1 ≤ 1 ∧
      0 ≤ (segInterior l0 l1 m0 m1).2 ∧ (segInterior l0 l1 m0 m1).2 ≤ 1 then
    segPick l0 l1 m0 m1 (segBestEdges l0 l1 m0 m1) (segInterior l0 l1 m0 m1)
  else segBestEdges l0 l1 m0 m1

/-- Modelled from the spec: `vtkLine::DistanceBetweenLineSegments` (its body
is in a `.cxx` file not under `src/`).  Minimizes the convex quadratic
squared-distance objective over the feasible region `[0,1]×[0,1]`: it keeps
the unconstrained closest approach of the two infinite lines when that
optimum falls inside the unit square, and otherwise re-solves along the
boundary edges of the square (the 1D optimum on each violated edge, clamped
into `[0,1]`), returning the feasible candidate of minimal squared
distance, the corresponding points on the two segments and their parametric
coordinates in `[0,1]`. -/
noncomputable def DistanceBetweenLineSegments (l0 l1 m0 m1 : Vec3) : LinesResult :=
  let p := segBest l0 l1 m0 m1
  ⟨Vec3.norm2 ((l0 + p.1 • (l1 - l0)) - (m0 + p.2 • (m1 - m0))),
    l0 + p.1 • (l1 - l0), m0 + p.2 • (m1 - m0), p.1, p.2⟩

end vtkLine

/-- Two direction vectors are parallel: one is a scalar multiple of the
other (this also covers a zero direction vector). -/
def ParallelVec (u v : Vec3) : Prop := ∃ r : ℝ, u = r • v ∨ v = r • u

/-- Two finite segments intersect: they share a point at parameters inside
`[0,1]` on both. -/
def SegmentsIntersect (l0 l1 m0 m1 : Vec3) : Prop :=
  ∃ s t : ℝ, 0 ≤ s ∧ s ≤ 1 ∧ 0 ≤ t ∧ t ≤ 1 ∧
    l0 + s • (l1 - l0) = m0 + t • (m1 - m0)

/-- A parameter pair lies in the feasible unit square. -/
def InUnitSquare (p : ℝ × ℝ) : Prop := 0 ≤ p.1 ∧ p.1 ≤ 1 ∧ 0 ≤ p.2 ∧ p.2 ≤ 1

/-- Three points are collinear: one of the two edge vectors out of `p2` is a
scalar multiple of the other (this covers coincident points as well). -/
def CollinearPts (p1 p2 p3 : Vec3) : Prop :=
  ∃ c : ℝ, p3 - p2 = c • (p1 - p2) ∨ p1 - p2 = c • (p3 - p2)

theorem computeNormalDirection_cyclic (p1 p2 p3 : Vec3) :
    vtkTriangle.ComputeNormalDirection p1 p2 p3 =
      vtkTriangle.ComputeNormalDirection p2 p3 p1 := by
  ext <;> simp [vtkTriangle.ComputeNormalDirection] <;> ring

theorem computeNormalDirection_eq_cross (v1 v2 v3 : Vec3) :
    vtkTriangle.ComputeNormalDirection v1 v2 v3 = Vec3.cross (v3 - v2) (v1 - v2) := by
  ext <;> simp [vtkTriangle.ComputeNormalDirection, Vec3.cross]

theorem cross_smul_left (c : ℝ) (b : Vec3) : Vec3.cross (c • b) b = 0 := by
  ext <;> simp [Vec3.cross] <;> ring

theorem cross_smul_right (c : ℝ) (a : Vec3) : Vec3.cross a (c • a) = 0 := by
  ext <;> simp [Vec3.cross] <;> ring

/-- Claim C7: for every triangle `(p1,p2,p3)`, `ComputeNormalDirection`
returns exactly the cross product `(p3-p2) × (p1-p2)` of the two edge
vectors, in that fixed operand order. -/
theorem C7_computeNormalDirection_is_cross (v1 v2 v3 : Vec3) :
    vtkTriangle.ComputeNormalDirection v1 v2 v3 = Vec3.cross (v3 - v2) (v1 - v2) :=
  computeNormalDirection_eq_cross v1 v2 v3

/-- Claim C8: `TriangleArea` equals half the Euclidean magnitude of the
`ComputeNormalDirection` vector, is invariant under cyclic permutation of
its three arguments, and equals 0 for every collinear triangle. -/
theorem C8_triangleArea_cyclic_and_degenerate (p1 p2 p3 : Vec3) :
    vtkTriangle.TriangleArea p1 p2 p3 =
      0.5 * Real.sqrt (Vec3.norm2 (vtkTriangle.ComputeNormalDirection p1 p2 p3)) ∧
    vtkTriangle.TriangleArea p1 p2 p3 = vtkTriangle.TriangleArea p2 p3 p1 ∧
    vtkTriangle.TriangleArea p1 p2 p3 = vtkTriangle.TriangleArea p3 p1 p2 ∧
    (CollinearPts p1 p2 p3 → vtkTriangle.TriangleArea p1 p2 p3 = 0) := by
  refine ⟨rfl, ?_, ?_, ?_⟩
  · unfold vtkTriangle.TriangleArea
    rw [computeNormalDirection_cyclic p1 p2 p3]
  · unfold vtkTriangle.TriangleArea
    rw [computeNormalDirection_cyclic p1 p2 p3, computeNormalDirection_cyclic p2 p3 p1]
  · rintro ⟨c, h | h⟩
    · have hdir : vtkTriangle.ComputeNormalDirection p1 p2 p3 = 0 := by
        rw [computeNormalDirection_eq_cross, h]
        exact cross_smul_left c (p1 - p2)
      unfold vtkTriangle.TriangleArea vtkTriangle.mathNorm
      rw [hdir]
      simp [Vec3.norm2, Vec3.dot]
    · have hdir : vtkTriangle.ComputeNormalDirection p1 p2 p3 = 0 := by
        rw [computeNormalDirection_eq_cross, h]
        exact cross_smul_right c (p3 - p2)
      unfold vtkTriangle.TriangleArea vtkTriangle.mathNorm
      rw [hdir]
      simp [Vec3.norm2, Vec3.dot]

/-- Witness for C8 at a concrete collinear triple. -/
theorem C8_witness :
    vtkTriangle.TriangleArea ⟨0, 0, 0⟩ ⟨1, 0, 0⟩ ⟨2, 0, 0⟩ = 0 := by
  refine (C8_triangleArea_cyclic_and_degenerate _ _ _).2.2.2 ⟨-1, Or.inl ?_⟩
  ext <;> norm_num

/-- Claim C6: for every degenerate (zero-area) triangle `ComputeNormal`
leaves the output as the zero vector (the division is guarded by a nonzero
length); for every non-degenerate triangle it returns
`ComputeNormalDirection` scaled to unit length. -/
theorem C6_computeNormal_degenerate_guard (v1 v2 v3 : Vec3) :
    (vtkTriangle.TriangleArea v1 v2 v3 = 0 → vtkTriangle.ComputeNormal v1 v2 v3 = 0) ∧
    (vtkTriangle.TriangleArea v1 v2 v3 ≠ 0 →
      vtkTriangle.ComputeNormal v1 v2 v3 =
        (1 / vtkTriangle.mathNorm (vtkTriangle.ComputeNormalDirection v1 v2 v3)) •
          vtkTriangle.ComputeNormalDirection v1 v2 v3 ∧
      vtkTriangle.mathNorm (vtkTriangle.ComputeNormal v1 v2 v3) = 1) := by
  set n := vtkTriangle.ComputeNormalDirection v1 v2 v3 with hn
  have hnorm2 : Vec3.norm2 n = n.x * n.x + n.y * n.y + n.z * n.z := rfl
  have harea : vtkTriangle.TriangleArea v1 v2 v3 = 0.5 * Real.sqrt (Vec3.norm2 n) := rfl
  constructor
  · intro h0
    rw [harea] at h0
    have hs : Real.sqrt (Vec3.norm2 n) = 0 := by linarith
    have hzero : Vec3.norm2 n = 0 := by
      have := Real.sqrt_eq_zero (Vec3.norm2_nonneg n) |>.mp hs
      exact this
    have hn0 : n = 0 := (Vec3.norm2_eq_zero_iff n).mp hzero
    unfold vtkTriangle.ComputeNormal
    rw [← hn, hn0]
    simp [Real.sqrt_zero]
  · intro hne
    rw [harea] at hne
    have hs : Real.sqrt (Vec3.norm2 n) ≠ 0 := by
      intro h
      exact hne (by rw [h]; ring)
    have hpos : 0 < Real.sqrt (Vec3.norm2 n) := by
      rcases lt_or_eq_of_le (Real.sqrt_nonneg (Vec3.norm2 n)) with h | h
      · exact h
      · exact absurd h.symm hs
    have hL : Real.sqrt (n.x * n.x + n.y * n.y + n.z * n.z) =
        Real.sqrt (Vec3.norm2 n) := by rw [hnorm2]
    have hcn : vtkTriangle.ComputeNormal v1 v2 v3 =
        (1 / Real.sqrt (Vec3.norm2 n)) • n := by
      unfold vtkTriangle.ComputeNormal
      rw [← hn]
      rw [if_pos (by rw [hL]; exact hs)]
      ext <;> simp [hL] <;> ring
    constructor
    · rw [hcn]
      rfl
    · rw [hcn]
      unfold vtkTriangle.mathNorm
      have hsq : Real.sqrt (Vec3.norm2 n) * Real.sqrt (Vec3.norm2 n) =
          Vec3.norm2 n := Real.mul_self_sqrt (Vec3.norm2_nonneg n)
      have hexp : Vec3.norm2 ((1 / Real.sqrt (Vec3.norm2 n)) • n) =
          Vec3.norm2 n / (Real.sqrt (Vec3.norm2 n) * Real.sqrt (Vec3.norm2 n)) := by
        simp only [Vec3.norm2, Vec3.dot, Vec3.smul_x, Vec3.smul_y, Vec3.smul_z]
        field_simp
      rw [hexp, hsq, div_self (by intro h; exact hs ((Real.sqrt_eq_zero (Vec3.norm2_nonneg n)).mpr h)), Real.sqrt_one]

/-- Witness for C6 at a degenerate and at a non-degenerate concrete
triangle. -/
theorem C6_witness :
    vtkTriangle.ComputeNormal 0 0 0 = 0 ∧
    vtkTriangle.ComputeNormal ⟨0, 0, 0⟩ ⟨1, 0, 0⟩ ⟨0, 1, 0⟩ = ⟨0, 0, 1⟩ := by
  constructor
  · refine (C6_computeNormal_degenerate_guard 0 0 0).1 ?_
    unfold vtkTriangle.TriangleArea vtkTriangle.mathNorm
    have : vtkTriangle.ComputeNormalDirection 0 0 0 = 0 := by
      ext <;> simp [vtkTriangle.ComputeNormalDirection]
    rw [this]
    simp [Vec3.norm2, Vec3.dot]
  · have hdir : vtkTriangle.ComputeNormalDirection ⟨0, 0, 0⟩ ⟨1, 0, 0⟩ ⟨0, 1, 0⟩ =
        ⟨0, 0, 1⟩ := by
      ext <;> simp [vtkTriangle.ComputeNormalDirection]
    have harea : vtkTriangle.TriangleArea ⟨0, 0, 0⟩ ⟨1, 0, 0⟩ ⟨0, 1, 0⟩ ≠ 0 := by
      unfold vtkTriangle.TriangleArea vtkTriangle.mathNorm
      rw [hdir]
      have : Vec3.norm2 ⟨0, 0, 1⟩ = 1 := by simp [Vec3.norm2, Vec3.dot]
      rw [this, Real.sqrt_one]
      norm_num
    have heq := ((C6_computeNormal_degenerate_guard ⟨0, 0, 0⟩ ⟨1, 0, 0⟩ ⟨0, 1, 0⟩).2 harea).1
    rw [heq, hdir]
    have hm : vtkTriangle.mathNorm ⟨0, 0, 1⟩ = 1 := by
      unfold vtkTriangle.mathNorm
      have hn1 : Vec3.norm2 ⟨0, 0, 1⟩ = 1 := by simp [Vec3.norm2, Vec3.dot]
      rw [hn1, Real.sqrt_one]
    rw [hm]
    ext <;> simp

theorem dot_comm (a b : Vec3) : Vec3.dot a b = Vec3.dot b a := by
  unfold Vec3.dot
  ring

theorem sub_eq_zero_iff_vec (a b : Vec3) : a - b = 0 ↔ a = b := by
  constructor
  · intro h
    have hx := congrArg Vec3.x h
    have hy := congrArg Vec3.y h
    have hz := congrArg Vec3.z h
    simp only [Vec3.sub_x, Vec3.sub_y, Vec3.sub_z, Vec3.zero_x, Vec3.zero_y,
      Vec3.zero_z] at hx hy hz
    ext <;> linarith
  · intro h
    subst h
    ext <;> simp

theorem norm2_pos_of_ne (p1 p2 : Vec3) (h : p1 ≠ p2) :
    0 < Vec3.norm2 (p2 - p1) := by
  rcases lt_or_eq_of_le (Vec3.norm2_nonneg (p2 - p1)) with hlt | heq
  · exact hlt
  · exfalso
    have := (Vec3.norm2_eq_zero_iff (p2 - p1)).mp heq.symm
    exact h ((sub_eq_zero_iff_vec p2 p1).mp this).symm

/-- Expansion of the squared distance from `x` to the point of parameter `s`
on the line `p1 + s*u` as a quadratic polynomial in `s`. -/
theorem norm2_line_expand (x p1 u : Vec3) (s : ℝ) :
    Vec3.norm2 (x - (p1 + s • u)) =
      Vec3.norm2 (x - p1) - 2 * s * Vec3.dot u (x - p1) + s ^ 2 * Vec3.dot u u := by
  simp only [Vec3.norm2, Vec3.dot, Vec3.sub_x, Vec3.sub_y, Vec3.sub_z, Vec3.add_x,
    Vec3.add_y, Vec3.add_z, Vec3.smul_x, Vec3.smul_y, Vec3.smul_z]
  ring

/-- The clamped critical point of the convex quadratic
`s ↦ a s² - 2 b s` minimizes it over `[0,1]`. -/
theorem clamped_quad_min (a b s : ℝ) (ha : 0 ≤ a) (hab : a = 0 → b = 0)
    (h0 : 0 ≤ s) (h1 : s ≤ 1) :
    a * clamp01 (b / a) ^ 2 - 2 * clamp01 (b / a) * b ≤ a * s ^ 2 - 2 * s * b := by
  rcases eq_or_lt_of_le ha with h | hpos
  · have hb : b = 0 := hab h.symm
    subst hb
    rw [← h]
    simp
  · have hane : a ≠ 0 := ne_of_gt hpos
    set r := b / a with hr
    have hb : b = r * a := by
      rw [hr]
      field_simp
    rcases le_or_lt r 0 with hr0 | hr0
    · have hc : clamp01 r = 0 := by
        unfold clamp01
        rw [min_eq_right (le_trans hr0 zero_le_one), max_eq_left hr0]
      rw [hc, hb]
      nlinarith [mul_nonneg (mul_nonneg hpos.le h0) h0,
        mul_nonneg (mul_nonneg h0 (neg_nonneg.2 hr0)) hpos.le]
    · rcases le_or_lt r 1 with hr1 | hr1
      · have hc : clamp01 r = r := clamp01_of_mem (le_of_lt hr0) hr1
        rw [hc, hb]
        nlinarith [mul_nonneg hpos.le (sq_nonneg (s - r))]
      · have hc : clamp01 r = 1 := by
          unfold clamp01
          rw [min_eq_left (le_of_lt hr1), max_eq_right zero_le_one]
        rw [hc, hb]
        have key : 0 ≤ a * ((1 - s) * (2 * r - (s + 1))) := by
          apply mul_nonneg (le_of_lt hpos)
          apply mul_nonneg (by linarith) (by linarith)
        nlinarith [key]

theorem evaluatePosition_t_eq (x p1 p2 : Vec3) :
    (vtkLine.EvaluatePosition x p1 p2).t =
      clamp01 (Vec3.dot (p2 - p1) (x - p1) / Vec3.dot (p2 - p1) (p2 - p1)) := by
  show clamp01 (if Vec3.dot (p2 - p1) (p2 - p1) ≠ 0 then
      Vec3.dot (p2 - p1) (x - p1) / Vec3.dot (p2 - p1) (p2 - p1) else 0) = _
  by_cases h : Vec3.dot (p2 - p1) (p2 - p1) = 0
  · rw [if_neg (by simpa using h), h, div_zero]
  · rw [if_pos h]

theorem evaluatePosition_dist2_eq (x p1 p2 : Vec3) :
    (vtkLine.EvaluatePosition x p1 p2).dist2 =
      Vec3.norm2 (x - (p1 + (vtkLine.EvaluatePosition x p1 p2).t • (p2 - p1))) := rfl

/-- Claim C10: for every prior contents of `pcoords`,
`vtkTriangle::GetParametricCenter` overwrites it with exactly
`(1/3, 1/3, 0)` (the third slot is 0, not the third barycentric weight
`1 - 1/3 - 1/3`) and returns 0; `vtkLine::GetParametricCenter` writes
exactly `(0.5, 0, 0)` and returns 0; both are independent of the input. -/
theorem C10_getParametricCenter (p q : Vec3) :
    vtkTriangle.GetParametricCenter p = (⟨1 / 3, 1 / 3, 0⟩, 0) ∧
    (vtkTriangle.GetParametricCenter p).1.z = 0 ∧
    (vtkTriangle.GetParametricCenter p).1.z ≠
      1 - (vtkTriangle.GetParametricCenter p).1.x - (vtkTriangle.GetParametricCenter p).1.y ∧
    vtkLine.GetParametricCenter p = (⟨0.5, 0, 0⟩, 0) ∧
    vtkTriangle.GetParametricCenter p = vtkTriangle.GetParametricCenter q ∧
    vtkLine.GetParametricCenter p = vtkLine.GetParametricCenter q := by
  refine ⟨rfl, rfl, ?_, rfl, rfl, rfl⟩
  show (0 : ℝ) ≠ 1 - 1 / 3 - 1 / 3
  norm_num

/-- Claim C1: for every segment `(p1,p2)` and query point `x`,
`vtkLine::EvaluatePosition` returns a parameter `t` clamped into `[0,1]`
and a `dist2` equal to the minimum of squared Euclidean distances from `x`
to every point of the finite segment (it is a lower bound on the squared
distance at every parameter in `[0,1]` and is attained at `t`); in the
degenerate case `p1 = p2` the segment is treated as a point and `t = 0`. -/
theorem C1_evaluatePosition_clamped_min (x p1 p2 : Vec3) :
    (0 ≤ (vtkLine.EvaluatePosition x p1 p2).t ∧ (vtkLine.EvaluatePosition x p1 p2).t ≤ 1) ∧
    (vtkLine.EvaluatePosition x p1 p2).dist2 =
      Vec3.norm2 (x - (p1 + (vtkLine.EvaluatePosition x p1 p2).t • (p2 - p1))) ∧
    (∀ s : ℝ, 0 ≤ s → s ≤ 1 →
      (vtkLine.EvaluatePosition x p1 p2).dist2 ≤
        Vec3.norm2 (x - (p1 + s • (p2 - p1)))) ∧
    (p1 = p2 → (vtkLine.EvaluatePosition x p1 p2).t = 0 ∧
      (vtkLine.EvaluatePosition x p1 p2).dist2 = Vec3.norm2 (x - p1)) := by
  have ht := evaluatePosition_t_eq x p1 p2
  refine ⟨by rw [ht]; exact clamp01_mem _, evaluatePosition_dist2_eq x p1 p2, ?_, ?_⟩
  · intro s h0 h1
    rw [evaluatePosition_dist2_eq x p1 p2, ht]
    rw [norm2_line_expand x p1 (p2 - p1) s,
      norm2_line_expand x p1 (p2 - p1) (clamp01 (Vec3.dot (p2 - p1) (x - p1) / Vec3.dot (p2 - p1) (p2 - p1)))]
    have key := clamped_quad_min (Vec3.dot (p2 - p1) (p2 - p1))
      (Vec3.dot (p2 - p1) (x - p1)) s (Vec3.norm2_nonneg (p2 - p1))
      (fun h => by
        have hz : p2 - p1 = 0 := (Vec3.norm2_eq_zero_iff (p2 - p1)).mp h
        rw [hz]
        simp [Vec3.dot])
      h0 h1
    linarith
  · intro h
    subst h
    have hz : Vec3.dot (p1 - p1) (p1 - p1) = 0 := by
      simp [Vec3.dot]
    constructor
    · rw [ht, hz, div_zero]
      unfold clamp01
      rw [min_eq_right zero_le_one, max_eq_left le_rfl]
    · rw [evaluatePosition_dist2_eq x p1 p1, ht, hz, div_zero]
      have hc : clamp01 (0 : ℝ) = 0 := by
        unfold clamp01
        rw [min_eq_right zero_le_one, max_eq_left le_rfl]
      rw [hc]
      congr 1
      ext <;> simp

/-- Witness for C1 at the spec scenario: unit segment `(0,0,0)-(1,0,0)`
and query point `(0.5,1,0)`, compared against the sample parameter 1/4. -/
theorem C1_witness :
    (vtkLine.EvaluatePosition ⟨0.5, 1, 0⟩ ⟨0, 0, 0⟩ ⟨1, 0, 0⟩).dist2 ≤
      Vec3.norm2 (⟨0.5, 1, 0⟩ - (⟨0, 0, 0⟩ + (1 / 4 : ℝ) • (⟨1, 0, 0⟩ - ⟨0, 0, 0⟩))) :=
  (C1_evaluatePosition_clamped_min ⟨0.5, 1, 0⟩ ⟨0, 0, 0⟩ ⟨1, 0, 0⟩).2.2.1 (1 / 4)
    (by norm_num) (by norm_num)

theorem distanceToLine_t_eq (x p1 p2 : Vec3) :
    (vtkLine.DistanceToLine x p1 p2).2.1 =
      Vec3.dot (p2 - p1) (x - p1) / Vec3.dot (p2 - p1) (p2 - p1) := rfl

theorem distanceToLineSimple_eq (x p1 p2 : Vec3) :
    vtkLine.DistanceToLineSimple x p1 p2 =
      Vec3.norm2 (x - (p1 +
        (Vec3.dot (p2 - p1) (x - p1) / Vec3.dot (p2 - p1) (p2 - p1)) • (p2 - p1))) := rfl

/-- Claim C9: the `DistanceToLine` overload returning `t` computes the same
unclamped projection parameter as `EvaluatePosition` (whose `t` is its
clamp into `[0,1]`), and that parameter can fall outside `[0,1]` on either
side; the overload without a `t` output returns the squared distance to the
infinite line through `(p1,p2)` (a lower bound over all real parameters,
attained at the projection). -/
theorem C9_distanceToLine_unclamped (x p1 p2 : Vec3) :
    (vtkLine.EvaluatePosition x p1 p2).t = clamp01 ((vtkLine.DistanceToLine x p1 p2).2.1) ∧
    (∃ q q1 q2 : Vec3, 1 < (vtkLine.DistanceToLine q q1 q2).2.1) ∧
    (∃ q q1 q2 : Vec3, (vtkLine.DistanceToLine q q1 q2).2.1 < 0) ∧
    (p1 ≠ p2 →
      (∀ s : ℝ, vtkLine.DistanceToLineSimple x p1 p2 ≤
        Vec3.norm2 (x - (p1 + s • (p2 - p1)))) ∧
      (∃ s : ℝ, vtkLine.DistanceToLineSimple x p1 p2 =
        Vec3.norm2 (x - (p1 + s • (p2 - p1))))) := by
  refine ⟨by rw [evaluatePosition_t_eq, distanceToLine_t_eq], ?_, ?_, ?_⟩
  · refine ⟨⟨2, 0, 0⟩, ⟨0, 0, 0⟩, ⟨1, 0, 0⟩, ?_⟩
    rw [distanceToLine_t_eq]
    have h1 : Vec3.dot (⟨1, 0, 0⟩ - ⟨0, 0, 0⟩ : Vec3) (⟨2, 0, 0⟩ - ⟨0, 0, 0⟩ : Vec3) = 2 := by
      simp [Vec3.dot]
    have h2 : Vec3.dot (⟨1, 0, 0⟩ - ⟨0, 0, 0⟩ : Vec3) (⟨1, 0, 0⟩ - ⟨0, 0, 0⟩ : Vec3) = 1 := by
      simp [Vec3.dot]
    rw [h1, h2]
    norm_num
  · refine ⟨⟨-1, 0, 0⟩, ⟨0, 0, 0⟩, ⟨1, 0, 0⟩, ?_⟩
    rw [distanceToLine_t_eq]
    have h1 : Vec3.dot (⟨1, 0, 0⟩ - ⟨0, 0, 0⟩ : Vec3) (⟨-1, 0, 0⟩ - ⟨0, 0, 0⟩ : Vec3) = -1 := by
      simp [Vec3.dot]
    have h2 : Vec3.dot (⟨1, 0, 0⟩ - ⟨0, 0, 0⟩ : Vec3) (⟨1, 0, 0⟩ - ⟨0, 0, 0⟩ : Vec3) = 1 := by
      simp [Vec3.dot]
    rw [h1, h2]
    norm_num
  · intro hne
    have hpos : 0 < Vec3.dot (p2 - p1) (p2 - p1) := norm2_pos_of_ne p1 p2 hne
    have hane : Vec3.dot (p2 - p1) (p2 - p1) ≠ 0 := ne_of_gt hpos
    constructor
    · intro s
      rw [distanceToLineSimple_eq, norm2_line_expand, norm2_line_expand]
      set a := Vec3.dot (p2 - p1) (p2 - p1) with hadef
      set b := Vec3.dot (p2 - p1) (x - p1) with hbdef
      have hdiff : (a * s ^ 2 - 2 * s * b) - (a * (b / a) ^ 2 - 2 * (b / a) * b) =
          (a * s - b) ^ 2 / a := by
        field_simp
        ring
      have hnn : 0 ≤ (a * s - b) ^ 2 / a := div_nonneg (sq_nonneg _) hpos.le
      linarith
    · exact ⟨Vec3.dot (p2 - p1) (x - p1) / Vec3.dot (p2 - p1) (p2 - p1),
        distanceToLineSimple_eq x p1 p2⟩

/-- Witness for C9: the infinite-line distance bound applied to a concrete
non-degenerate line and a concrete parameter. -/
theorem C9_witness :
    vtkLine.DistanceToLineSimple ⟨0, 2, 0⟩ ⟨0, 0, 0⟩ ⟨1, 0, 0⟩ ≤
      Vec3.norm2 ((⟨0, 2, 0⟩ : Vec3) - (⟨0, 0, 0⟩ + (3 : ℝ) • (⟨1, 0, 0⟩ - ⟨0, 0, 0⟩))) :=
  ((C9_distanceToLine_unclamped ⟨0, 2, 0⟩ ⟨0, 0, 0⟩ ⟨1, 0, 0⟩).2.2.2
    (by
      intro h
      have := congrArg Vec3.x h
      norm_num at this)).1 3

/-- Claim C5: whenever the 2×2 system of `DistanceBetweenLines` is singular
under the relative determinant tolerance, the result is the fallback
computed from `DistanceToLine` of the endpoint `l0` against the line
`(m0,m1)` — `t1 = 0`, `t2` the `DistanceToLine` projection parameter, and
`dist2` the `DistanceToLine` squared distance to the infinite line — so the
division by the near-zero determinant is never performed in that case. -/
theorem C5_distanceBetweenLines_singular_fallback (l0 l1 m0 m1 : Vec3)
    (h : Vec3.dot (l1 - l0) (l1 - l0) * Vec3.dot (m1 - m0) (m1 - m0) -
        Vec3.dot (l1 - l0) (m1 - m0) * Vec3.dot (l1 - l0) (m1 - m0) <
      1e-6 * Vec3.dot (l1 - l0) (l1 - l0) * Vec3.dot (m1 - m0) (m1 - m0)) :
    (vtkLine.DistanceBetweenLines l0 l1 m0 m1).t1 = 0 ∧
    (vtkLine.DistanceBetweenLines l0 l1 m0 m1).t2 =
      (vtkLine.DistanceToLine l0 m0 m1).2.1 ∧
    (vtkLine.DistanceBetweenLines l0 l1 m0 m1).dist2 =
      vtkLine.DistanceToLineSimple l0 m0 m1 := by
  have ht1 : (vtkLine.DistanceBetweenLines l0 l1 m0 m1).t1 = 0 := by
    show (if Vec3.dot (l1 - l0) (l1 - l0) * Vec3.dot (m1 - m0) (m1 - m0) -
        Vec3.dot (l1 - l0) (m1 - m0) * Vec3.dot (l1 - l0) (m1 - m0) <
        1e-6 * Vec3.dot (l1 - l0) (l1 - l0) * Vec3.dot (m1 - m0) (m1 - m0) then (0 : ℝ)
      else _) = 0
    rw [if_pos h]
  have ht2 : (vtkLine.DistanceBetweenLines l0 l1 m0 m1).t2 =
      (vtkLine.DistanceToLine l0 m0 m1).2.1 := by
    show (if Vec3.dot (l1 - l0) (l1 - l0) * Vec3.dot (m1 - m0) (m1 - m0) -
        Vec3.dot (l1 - l0) (m1 - m0) * Vec3.dot (l1 - l0) (m1 - m0) <
        1e-6 * Vec3.dot (l1 - l0) (l1 - l0) * Vec3.dot (m1 - m0) (m1 - m0) then
        (vtkLine.DistanceToLine l0 m0 m1).2.1
      else _) = (vtkLine.DistanceToLine l0 m0 m1).2.1
    rw [if_pos h]
  refine ⟨ht1, ht2, ?_⟩
  have hd : (vtkLine.DistanceBetweenLines l0 l1 m0 m1).dist2 =
      Vec3.norm2 ((l0 + (vtkLine.DistanceBetweenLines l0 l1 m0 m1).t1 • (l1 - l0)) -
        (m0 + (vtkLine.DistanceBetweenLines l0 l1 m0 m1).t2 • (m1 - m0))) := rfl
  rw [hd, ht1, ht2, distanceToLine_t_eq, distanceToLineSimple_eq]
  congr 1
  ext <;> simp

/-- The 2×2 determinant of two 2-vectors placed as columns. -/
def det2 (a b : Vec2) : ℝ := a.x * b.y - a.y * b.x

/-- The determinant of the 2×2 edge-vector system of the triangle
`(x1,x2,x3)`, built from the edge vectors `x1 - x3` and `x2 - x3`. -/
def baryDet (x1 x2 x3 : Vec2) : ℝ := det2 (x1 - x3) (x2 - x3)

namespace vtkTriangle

/-- Modelled from the spec: `vtkTriangle::BarycentricCoords` (its body is in
a `.cxx` file not under `src/`).  Solves the 2×2 linear system built from
the two edge vectors `x1 - x3` and `x2 - x3` by Cramer's rule; returns
failure (`none`, the C code's return value 0) when the triangle is
degenerate, i.e. the determinant is below the tolerance in absolute value;
on success returns the three barycentric weights, the third computed as
`1 - b0 - b1` rather than re-solved.  The spec does not fix the numeric
tolerance, so it is a parameter `tol`. -/
noncomputable def BarycentricCoords (tol : ℝ) (x x1 x2 x3 : Vec2) :
    Option (ℝ × ℝ × ℝ) :=
  if |det2 (x1 - x3) (x2 - x3)| < tol then none
  else
    some (det2 (x - x3) (x2 - x3) / det2 (x1 - x3) (x2 - x3),
          det2 (x1 - x3) (x - x3) / det2 (x1 - x3) (x2 - x3),
          1 - det2 (x - x3) (x2 - x3) / det2 (x1 - x3) (x2 - x3) -
            det2 (x1 - x3) (x - x3) / det2 (x1 - x3) (x2 - x3))

end vtkTriangle

/-- The closed triangle spanned by three 2D vertices: all convex
combinations of the vertices (boundary included). -/
def ClosedTriangle (x1 x2 x3 : Vec2) : Set Vec2 :=
  { p | ∃ a b c : ℝ, 0 ≤ a ∧ 0 ≤ b ∧ 0 ≤ c ∧ a + b + c = 1 ∧
    p = a • x1 + b • x2 + c • x3 }

/-- Claim C2: `BarycentricCoords` fails exactly when the determinant of the
2×2 edge-vector system is below the tolerance in absolute value, and on
success the three weights sum to exactly 1, the third being
`1 - b0 - b1`. -/
theorem C2_barycentricCoords_failure_and_sum (tol : ℝ) (x x1 x2 x3 : Vec2) :
    (vtkTriangle.BarycentricCoords tol x x1 x2 x3 = none ↔
      |baryDet x1 x2 x3| < tol) ∧
    (∀ b0 b1 b2 : ℝ,
      vtkTriangle.BarycentricCoords tol x x1 x2 x3 = some (b0, b1, b2) →
        b0 + b1 + b2 = 1 ∧ b2 = 1 - b0 - b1) := by
  unfold vtkTriangle.BarycentricCoords baryDet
  by_cases h : |det2 (x1 - x3) (x2 - x3)| < tol
  · rw [if_pos h]
    refine ⟨by simp [h], ?_⟩
    intro b0 b1 b2 hsome
    exact absurd hsome (by simp)
  · rw [if_neg h]
    refine ⟨by simp [h], ?_⟩
    intro b0 b1 b2 hsome
    have h0 := congrArg (fun o => o.getD (0, 0, 0)) hsome
    simp only [Option.getD_some] at h0
    obtain ⟨e0, e1, e2⟩ : _ ∧ _ ∧ _ := by
      refine ⟨congrArg Prod.fst h0, congrArg (fun p => p.snd.fst) h0,
        congrArg (fun p => p.snd.snd) h0⟩
    simp only at e0 e1 e2
    constructor
    · rw [← e0, ← e1, ← e2]
      ring
    · rw [← e0, ← e1, ← e2]

/-- Witness for C2: on the concrete triangle `(0,0),(1,0),(0,1)` with
tolerance 1/2 the determinant is 1, so the computation does not fail. -/
theorem C2_witness :
    ¬ (vtkTriangle.BarycentricCoords (1 / 2) ⟨0.25, 0.25⟩ ⟨0, 0⟩ ⟨1, 0⟩ ⟨0, 1⟩ = none) := by
  rw [(C2_barycentricCoords_failure_and_sum (1 / 2) ⟨0.25, 0.25⟩ ⟨0, 0⟩ ⟨1, 0⟩ ⟨0, 1⟩).1]
  unfold baryDet det2
  simp only [Vec2.sub_x', Vec2.sub_y']
  norm_num

theorem bary_success_fields {tol : ℝ} {x x1 x2 x3 : Vec2} {b0 b1 b2 : ℝ}
    (hsome : vtkTriangle.BarycentricCoords tol x x1 x2 x3 = some (b0, b1, b2)) :
    ¬ |det2 (x1 - x3) (x2 - x3)| < tol ∧
    b0 = det2 (x - x3) (x2 - x3) / det2 (x1 - x3) (x2 - x3) ∧
    b1 = det2 (x1 - x3) (x - x3) / det2 (x1 - x3) (x2 - x3) ∧
    b2 = 1 - b0 - b1 := by
  unfold vtkTriangle.BarycentricCoords at hsome
  by_cases h : |det2 (x1 - x3) (x2 - x3)| < tol
  · rw [if_pos h] at hsome
    exact absurd hsome (by simp)
  · rw [if_neg h] at hsome
    have h0 := congrArg (fun o => o.getD (0, 0, 0)) hsome
    simp only [Option.getD_some] at h0
    have e0 : b0 = det2 (x - x3) (x2 - x3) / det2 (x1 - x3) (x2 - x3) :=
      (congrArg Prod.fst h0).symm
    have e1 : b1 = det2 (x1 - x3) (x - x3) / det2 (x1 - x3) (x2 - x3) :=
      (congrArg (fun p => p.snd.fst) h0).symm
    have e2 : b2 = 1 - det2 (x - x3) (x2 - x3) / det2 (x1 - x3) (x2 - x3) -
        det2 (x1 - x3) (x - x3) / det2 (x1 - x3) (x2 - x3) :=
      (congrArg (fun p => p.snd.snd) h0).symm
    exact ⟨h, e0, e1, by rw [e2, ← e0, ← e1]⟩

/-- On success with a positive tolerance, the computed weights reproduce the
query point as an affine combination of the vertices. -/
theorem bary_reproduces {tol : ℝ} {x x1 x2 x3 : Vec2} {b0 b1 b2 : ℝ}
    (htol : 0 < tol)
    (hsome : vtkTriangle.BarycentricCoords tol x x1 x2 x3 = some (b0, b1, b2)) :
    x = b0 • x1 + b1 • x2 + b2 • x3 := by
  obtain ⟨hnd, e0, e1, e2⟩ := bary_success_fields hsome
  have hdet : det2 (x1 - x3) (x2 - x3) ≠ 0 := by
    intro h
    rw [h] at hnd
    exact hnd (by simpa using htol)
  have hdet' : (x1.x - x3.x) * (x2.y - x3.y) - (x1.y - x3.y) * (x2.x - x3.x) ≠ 0 := by
    unfold det2 at hdet
    simpa using hdet
  ext
  · have hx : b0 * (x1.x - x3.x) + b1 * (x2.x - x3.x) = x.x - x3.x := by
      rw [e0, e1]
      unfold det2
      simp only [Vec2.sub_x', Vec2.sub_y']
      field_simp
      ring
    simp only [Vec2.add_x', Vec2.smul_x']
    rw [e2]
    linear_combination -hx
  · have hy : b0 * (x1.y - x3.y) + b1 * (x2.y - x3.y) = x.y - x3.y := by
      rw [e0, e1]
      unfold det2
      simp only [Vec2.sub_x', Vec2.sub_y']
      field_simp
      ring
    simp only [Vec2.add_y', Vec2.smul_y']
    rw [e2]
    linear_combination -hy

/-- With a nonzero determinant, barycentric weights of a point are unique:
any affine combination representing `x` agrees with the computed weights. -/
theorem bary_unique {tol : ℝ} {x x1 x2 x3 : Vec2} {b0 b1 b2 a b c : ℝ}
    (htol : 0 < tol)
    (hsome : vtkTriangle.BarycentricCoords tol x x1 x2 x3 = some (b0, b1, b2))
    (hsum : a + b + c = 1) (hx : x = a • x1 + b • x2 + c • x3) :
    b0 = a ∧ b1 = b ∧ b2 = c := by
  obtain ⟨hnd, e0, e1, e2⟩ := bary_success_fields hsome
  have hdet : det2 (x1 - x3) (x2 - x3) ≠ 0 := by
    intro h
    rw [h] at hnd
    exact hnd (by simpa using htol)
  have hxx : x.x = a * x1.x + b * x2.x + c * x3.x := by
    rw [hx]
    simp
  have hxy : x.y = a * x1.y + b * x2.y + c * x3.y := by
    rw [hx]
    simp
  have hc : c = 1 - a - b := by linarith
  have hb0 : det2 (x - x3) (x2 - x3) = a * det2 (x1 - x3) (x2 - x3) := by
    unfold det2
    simp only [Vec2.sub_x', Vec2.sub_y']
    rw [hxx, hxy, hc]
    ring
  have hb1 : det2 (x1 - x3) (x - x3) = b * det2 (x1 - x3) (x2 - x3) := by
    unfold det2
    simp only [Vec2.sub_x', Vec2.sub_y']
    rw [hxx, hxy, hc]
    ring
  have g0 : b0 = a := by
    rw [e0, hb0]
    field_simp
  have g1 : b1 = b := by
    rw [e1, hb1]
    field_simp
  refine ⟨g0, g1, ?_⟩
  rw [e2, g0, g1]
  linarith

/-- Claim C3: for a non-degenerate triangle (the computation succeeded with
a positive tolerance), the three returned weights all lie in `[0,1]` if and
only if the query point lies in the closed triangle. -/
theorem C3_barycentric_unit_iff_inside (tol : ℝ) (x x1 x2 x3 : Vec2)
    (b0 b1 b2 : ℝ) (htol : 0 < tol)
    (hsome : vtkTriangle.BarycentricCoords tol x x1 x2 x3 = some (b0, b1, b2)) :
    (0 ≤ b0 ∧ b0 ≤ 1 ∧ 0 ≤ b1 ∧ b1 ≤ 1 ∧ 0 ≤ b2 ∧ b2 ≤ 1) ↔
      x ∈ ClosedTriangle x1 x2 x3 := by
  constructor
  · rintro ⟨h0, h0', h1, h1', h2, h2'⟩
    have hsum : b2 = 1 - b0 - b1 := (bary_success_fields hsome).2.2.2
    exact ⟨b0, b1, b2, h0, h1, h2, by linarith, bary_reproduces htol hsome⟩
  · rintro ⟨a, b, c, ha, hb, hc, hsum, hx⟩
    obtain ⟨g0, g1, g2⟩ := bary_unique htol hsome hsum hx
    refine ⟨by rw [g0]; exact ha, by rw [g0]; linarith,
      by rw [g1]; exact hb, by rw [g1]; linarith,
      by rw [g2]; exact hc, by rw [g2]; linarith⟩

/-- Witness for C3 at the spec scenario: triangle `(0,0),(1,0),(0,1)` and
query point `(0.25,0.25)`, whose weights are `(1/2, 1/4, 1/4)`. -/
theorem C3_witness :
    (⟨0.25, 0.25⟩ : Vec2) ∈ ClosedTriangle ⟨0, 0⟩ ⟨1, 0⟩ ⟨0, 1⟩ := by
  have hsome : vtkTriangle.BarycentricCoords (1 / 2) ⟨0.25, 0.25⟩ ⟨0, 0⟩ ⟨1, 0⟩ ⟨0, 1⟩ =
      some (1 / 2, 1 / 4, 1 / 4) := by
    unfold vtkTriangle.BarycentricCoords det2
    rw [if_neg]
    · simp only [Vec2.sub_x', Vec2.sub_y']
      norm_num
    · simp only [Vec2.sub_x', Vec2.sub_y']
      norm_num
  exact (C3_barycentric_unit_iff_inside (1 / 2) ⟨0.25, 0.25⟩ ⟨0, 0⟩ ⟨1, 0⟩ ⟨0, 1⟩
    (1 / 2) (1 / 4) (1 / 4) (by norm_num) hsome).mp (by norm_num)

theorem dot_smul_right (r : ℝ) (a b : Vec3) :
    Vec3.dot a (r • b) = r * Vec3.dot a b := by
  unfold Vec3.dot
  simp only [Vec3.smul_x, Vec3.smul_y, Vec3.smul_z]
  ring

theorem dot_sub_right (a b c : Vec3) :
    Vec3.dot a (b - c) = Vec3.dot a b - Vec3.dot a c := by
  unfold Vec3.dot
  simp only [Vec3.sub_x, Vec3.sub_y, Vec3.sub_z]
  ring

theorem segQ_nonneg (l0 l1 m0 m1 : Vec3) (p : ℝ × ℝ) :
    0 ≤ vtkLine.segQ l0 l1 m0 m1 p := Vec3.norm2_nonneg _

theorem segPick_le_left (l0 l1 m0 m1 : Vec3) (p q : ℝ × ℝ) :
    vtkLine.segQ l0 l1 m0 m1 (vtkLine.segPick l0 l1 m0 m1 p q) ≤
      vtkLine.segQ l0 l1 m0 m1 p := by
  unfold vtkLine.segPick
  split_ifs with h
  · linarith
  · exact le_rfl

theorem segPick_le_right (l0 l1 m0 m1 : Vec3) (p q : ℝ × ℝ) :
    vtkLine.segQ l0 l1 m0 m1 (vtkLine.segPick l0 l1 m0 m1 p q) ≤
      vtkLine.segQ l0 l1 m0 m1 q := by
  unfold vtkLine.segPick
  split_ifs with h
  · exact le_rfl
  · linarith [not_lt.mp h]

theorem segPick_box (l0 l1 m0 m1 : Vec3) {p q : ℝ × ℝ}
    (hp : InUnitSquare p) (hq : InUnitSquare q) :
    InUnitSquare (vtkLine.segPick l0 l1 m0 m1 p q) := by
  unfold vtkLine.segPick
  split_ifs with h
  · exact hq
  · exact hp

theorem segCand0_box (l0 l1 m0 m1 : Vec3) : InUnitSquare (vtkLine.segCand0 l0 l1 m0 m1) :=
  ⟨le_refl 0, zero_le_one, (clamp01_mem _).1, (clamp01_mem _).2⟩

theorem segCand1_box (l0 l1 m0 m1 : Vec3) : InUnitSquare (vtkLine.segCand1 l0 l1 m0 m1) :=
  ⟨zero_le_one, le_refl 1, (clamp01_mem _).1, (clamp01_mem _).2⟩

theorem segCand2_box (l0 l1 m0 m1 : Vec3) : InUnitSquare (vtkLine.segCand2 l0 l1 m0 m1) :=
  ⟨(clamp01_mem _).1, (clamp01_mem _).2, le_refl 0, zero_le_one⟩

theorem segCand3_box (l0 l1 m0 m1 : Vec3) : InUnitSquare (vtkLine.segCand3 l0 l1 m0 m1) :=
  ⟨(clamp01_mem _).1, (clamp01_mem _).2, zero_le_one, le_refl 1⟩

theorem segBestEdges_box (l0 l1 m0 m1 : Vec3) :
    InUnitSquare (vtkLine.segBestEdges l0 l1 m0 m1) := by
  unfold vtkLine.segBestEdges
  exact segPick_box l0 l1 m0 m1
    (segPick_box l0 l1 m0 m1
      (segPick_box l0 l1 m0 m1 (segCand0_box l0 l1 m0 m1) (segCand1_box l0 l1 m0 m1))
      (segCand2_box l0 l1 m0 m1))
    (segCand3_box l0 l1 m0 m1)

theorem segBest_box (l0 l1 m0 m1 : Vec3) :
    InUnitSquare (vtkLine.segBest l0 l1 m0 m1) := by
  unfold vtkLine.segBest
  split_ifs with h
  · exact segPick_box l0 l1 m0 m1 (segBestEdges_box l0 l1 m0 m1)
      ⟨h.2.1, h.2.2.1, h.2.2.2.1, h.2.2.2.2⟩
  · exact segBestEdges_box l0 l1 m0 m1

theorem dbls_t1_eq (l0 l1 m0 m1 : Vec3) :
    (vtkLine.DistanceBetweenLineSegments l0 l1 m0 m1).t1 =
      (vtkLine.segBest l0 l1 m0 m1).1 := rfl

theorem dbls_t2_eq (l0 l1 m0 m1 : Vec3) :
    (vtkLine.DistanceBetweenLineSegments l0 l1 m0 m1).t2 =
      (vtkLine.segBest l0 l1 m0 m1).2 := rfl

theorem dbls_dist2_eq (l0 l1 m0 m1 : Vec3) :
    (vtkLine.DistanceBetweenLineSegments l0 l1 m0 m1).dist2 =
      vtkLine.segQ l0 l1 m0 m1 (vtkLine.segBest l0 l1 m0 m1) := by
  show Vec3.norm2 ((l0 + (vtkLine.segBest l0 l1 m0 m1).1 • (l1 - l0)) -
      (m0 + (vtkLine.segBest l0 l1 m0 m1).2 • (m1 - m0))) = _
  unfold vtkLine.segQ
  congr 1
  ext <;> simp <;> ring

/-- If the determinant of the closest-approach system vanishes, the two
direction vectors are parallel (Cauchy–Schwarz equality case). -/
theorem parallel_of_segDet_zero (u v : Vec3)
    (h : Vec3.dot u u * Vec3.dot v v - Vec3.dot u v * Vec3.dot u v = 0) :
    ParallelVec u v := by
  by_cases hv : v = 0
  · refine ⟨0, Or.inr ?_⟩
    rw [hv]
    ext <;> simp
  · have hc : Vec3.dot v v ≠ 0 := fun hz => hv ((Vec3.norm2_eq_zero_iff v).mp hz)
    have hz : Vec3.norm2 (Vec3.dot v v • u - Vec3.dot u v • v) =
        Vec3.dot v v * (Vec3.dot u u * Vec3.dot v v - Vec3.dot u v * Vec3.dot u v) := by
      simp only [Vec3.norm2, Vec3.dot, Vec3.sub_x, Vec3.sub_y, Vec3.sub_z,
        Vec3.smul_x, Vec3.smul_y, Vec3.smul_z]
      ring
    rw [h, mul_zero] at hz
    have hvec := (Vec3.norm2_eq_zero_iff _).mp hz
    refine ⟨Vec3.dot u v / Vec3.dot v v, Or.inl ?_⟩
    have hx := congrArg Vec3.x hvec
    have hy := congrArg Vec3.y hvec
    have hzc := congrArg Vec3.z hvec
    simp only [Vec3.sub_x, Vec3.sub_y, Vec3.sub_z, Vec3.smul_x, Vec3.smul_y,
      Vec3.smul_z, Vec3.zero_x, Vec3.zero_y, Vec3.zero_z] at hx hy hzc
    ext
    · show u.x = Vec3.dot u v / Vec3.dot v v * v.x
      field_simp
      linarith
    · show u.y = Vec3.dot u v / Vec3.dot v v * v.y
      field_simp
      linarith
    · show u.z = Vec3.dot u v / Vec3.dot v v * v.z
      field_simp
      linarith

/-- At a transversal crossing, the unconstrained optimum of the quadratic
is exactly the crossing parameter pair. -/
theorem segInterior_eq_of_cross (l0 l1 m0 m1 : Vec3) (s0 t0 : ℝ)
    (hD : vtkLine.segDet l0 l1 m0 m1 ≠ 0)
    (hint : l0 + s0 • (l1 - l0) = m0 + t0 • (m1 - m0)) :
    vtkLine.segInterior l0 l1 m0 m1 = (s0, t0) := by
  have hwv : l0 - m0 = t0 • (m1 - m0) - s0 • (l1 - l0) := by
    have hx := congrArg Vec3.x hint
    have hy := congrArg Vec3.y hint
    have hz := congrArg Vec3.z hint
    simp only [Vec3.add_x, Vec3.add_y, Vec3.add_z, Vec3.smul_x, Vec3.smul_y,
      Vec3.smul_z, Vec3.sub_x, Vec3.sub_y, Vec3.sub_z] at hx hy hz
    ext <;> simp <;> linarith
  have hd : Vec3.dot (l1 - l0) (l0 - m0) =
      t0 * Vec3.dot (l1 - l0) (m1 - m0) - s0 * Vec3.dot (l1 - l0) (l1 - l0) := by
    rw [hwv, dot_sub_right, dot_smul_right, dot_smul_right]
  have he : Vec3.dot (m1 - m0) (l0 - m0) =
      t0 * Vec3.dot (m1 - m0) (m1 - m0) - s0 * Vec3.dot (m1 - m0) (l1 - l0) := by
    rw [hwv, dot_sub_right, dot_smul_right, dot_smul_right]
  have hcomm : Vec3.dot (m1 - m0) (l1 - l0) = Vec3.dot (l1 - l0) (m1 - m0) :=
    dot_comm _ _
  rw [hcomm] at he
  have hnum1 : Vec3.dot (l1 - l0) (m1 - m0) * Vec3.dot (m1 - m0) (l0 - m0) -
      Vec3.dot (m1 - m0) (m1 - m0) * Vec3.dot (l1 - l0) (l0 - m0) =
      s0 * vtkLine.segDet l0 l1 m0 m1 := by
    rw [hd, he]
    unfold vtkLine.segDet
    ring
  have hnum2 : Vec3.dot (l1 - l0) (l1 - l0) * Vec3.dot (m1 - m0) (l0 - m0) -
      Vec3.dot (l1 - l0) (m1 - m0) * Vec3.dot (l1 - l0) (l0 - m0) =
      t0 * vtkLine.segDet l0 l1 m0 m1 := by
    rw [hd, he]
    unfold vtkLine.segDet
    ring
  unfold vtkLine.segInterior
  rw [hnum1, hnum2, mul_div_assoc, mul_div_assoc, div_self hD, mul_one, mul_one]

/-- Claim C4: `DistanceBetweenLineSegments` returns parameters `t1,t2` in
`[0,1]`; for two non-intersecting non-parallel segments the returned
`dist2` is strictly positive; and when the segments cross (share a point,
directions not parallel) the returned `dist2` is 0. -/
theorem C4_distanceBetweenLineSegments (l0 l1 m0 m1 : Vec3) :
    (0 ≤ (vtkLine.DistanceBetweenLineSegments l0 l1 m0 m1).t1 ∧
     (vtkLine.DistanceBetweenLineSegments l0 l1 m0 m1).t1 ≤ 1 ∧
     0 ≤ (vtkLine.DistanceBetweenLineSegments l0 l1 m0 m1).t2 ∧
     (vtkLine.DistanceBetweenLineSegments l0 l1 m0 m1).t2 ≤ 1) ∧
    (¬ SegmentsIntersect l0 l1 m0 m1 → ¬ ParallelVec (l1 - l0) (m1 - m0) →
      0 < (vtkLine.DistanceBetweenLineSegments l0 l1 m0 m1).dist2) ∧
    (SegmentsIntersect l0 l1 m0 m1 → ¬ ParallelVec (l1 - l0) (m1 - m0) →
      (vtkLine.DistanceBetweenLineSegments l0 l1 m0 m1).dist2 = 0) := by
  have hbox := segBest_box l0 l1 m0 m1
  refine ⟨?_, ?_, ?_⟩
  · rw [dbls_t1_eq, dbls_t2_eq]
    exact hbox
  · intro hni hnp
    rw [dbls_dist2_eq]
    rcases lt_or_eq_of_le (segQ_nonneg l0 l1 m0 m1 (vtkLine.segBest l0 l1 m0 m1)) with h | h
    · exact h
    · exfalso
      have hvec := (Vec3.norm2_eq_zero_iff _).mp h.symm
      have hx := congrArg Vec3.x hvec
      have hy := congrArg Vec3.y hvec
      have hz := congrArg Vec3.z hvec
      simp only [Vec3.add_x, Vec3.add_y, Vec3.add_z, Vec3.sub_x, Vec3.sub_y,
        Vec3.sub_z, Vec3.smul_x, Vec3.smul_y, Vec3.smul_z, Vec3.zero_x,
        Vec3.zero_y, Vec3.zero_z] at hx hy hz
      refine hni ⟨(vtkLine.segBest l0 l1 m0 m1).1, (vtkLine.segBest l0 l1 m0 m1).2,
        hbox.1, hbox.2.1, hbox.2.2.1, hbox.2.2.2, ?_⟩
      ext <;> simp <;> linarith
  · rintro ⟨s0, t0, hs0, hs1, ht0, ht1, hint⟩ hnp
    have hD : vtkLine.segDet l0 l1 m0 m1 ≠ 0 := by
      intro h
      exact hnp (parallel_of_segDet_zero (l1 - l0) (m1 - m0) h)
    have hsi : vtkLine.segInterior l0 l1 m0 m1 = (s0, t0) :=
      segInterior_eq_of_cross l0 l1 m0 m1 s0 t0 hD hint
    have hQ0 : vtkLine.segQ l0 l1 m0 m1 (s0, t0) = 0 := by
      unfold vtkLine.segQ
      have hvz : (l0 - m0) + s0 • (l1 - l0) - t0 • (m1 - m0) = 0 := by
        have hx := congrArg Vec3.x hint
        have hy := congrArg Vec3.y hint
        have hz := congrArg Vec3.z hint
        simp only [Vec3.add_x, Vec3.add_y, Vec3.add_z, Vec3.smul_x, Vec3.smul_y,
          Vec3.smul_z, Vec3.sub_x, Vec3.sub_y, Vec3.sub_z] at hx hy hz
        ext <;> simp <;> linarith
      rw [hvz]
      simp [Vec3.norm2, Vec3.dot]
    have hcond : vtkLine.segDet l0 l1 m0 m1 ≠ 0 ∧
        0 ≤ (vtkLine.segInterior l0 l1 m0 m1).1 ∧
        (vtkLine.segInterior l0 l1 m0 m1).1 ≤ 1 ∧
        0 ≤ (vtkLine.segInterior l0 l1 m0 m1).2 ∧
        (vtkLine.segInterior l0 l1 m0 m1).2 ≤ 1 := by
      rw [hsi]
      exact ⟨hD, hs0, hs1, ht0, ht1⟩
    have hle : vtkLine.segQ l0 l1 m0 m1 (vtkLine.segBest l0 l1 m0 m1) ≤
        vtkLine.segQ l0 l1 m0 m1 (vtkLine.segInterior l0 l1 m0 m1) := by
      unfold vtkLine.segBest
      rw [if_pos hcond]
      exact segPick_le_right l0 l1 m0 m1 _ _
    rw [hsi, hQ0] at hle
    rw [dbls_dist2_eq]
    exact le_antisymm hle (segQ_nonneg l0 l1 m0 m1 _)

/-- Witness for C4 at the spec scenario: two unit segments forming an X,
`(0,0,0)-(1,1,0)` and `(0,1,0)-(1,0,0)`, crossing at `(0.5,0.5,0)`. -/
theorem C4_witness :
    (vtkLine.DistanceBetweenLineSegments ⟨0, 0, 0⟩ ⟨1, 1, 0⟩ ⟨0, 1, 0⟩ ⟨1, 0, 0⟩).dist2 = 0 := by
  refine (C4_distanceBetweenLineSegments ⟨0, 0, 0⟩ ⟨1, 1, 0⟩ ⟨0, 1, 0⟩ ⟨1, 0, 0⟩).2.2 ?_ ?_
  · refine ⟨1 / 2, 1 / 2, by norm_num, by norm_num, by norm_num, by norm_num, ?_⟩
    ext <;> simp <;> norm_num
  · rintro ⟨r, h | h⟩
    · have hx := congrArg Vec3.x h
      have hy := congrArg Vec3.y h
      simp only [Vec3.sub_x, Vec3.sub_y, Vec3.smul_x, Vec3.smul_y] at hx hy
      norm_num at hx hy
      linarith
    · have hx := congrArg Vec3.x h
      have hy := congrArg Vec3.y h
      simp only [Vec3.sub_x, Vec3.sub_y, Vec3.smul_x, Vec3.smul_y] at hx hy
      norm_num at hx hy
      linarith

/-- Witness for C5 at two concrete parallel segments. -/
theorem C5_witness :
    (vtkLine.DistanceBetweenLines ⟨0, 0, 0⟩ ⟨1, 0, 0⟩ ⟨0, 1, 0⟩ ⟨1, 1, 0⟩).t1 = 0 := by
  refine (C5_distanceBetweenLines_singular_fallback ⟨0, 0, 0⟩ ⟨1, 0, 0⟩ ⟨0, 1, 0⟩ ⟨1, 1, 0⟩ ?_).1
  have h1 : Vec3.dot ((⟨1, 0, 0⟩ : Vec3) - ⟨0, 0, 0⟩) ((⟨1, 0, 0⟩ : Vec3) - ⟨0, 0, 0⟩) = 1 := by
    simp [Vec3.dot]
  have h2 : Vec3.dot ((⟨1, 1, 0⟩ : Vec3) - ⟨0, 1, 0⟩) ((⟨1, 1, 0⟩ : Vec3) - ⟨0, 1, 0⟩) = 1 := by
    simp [Vec3.dot]
  have h3 : Vec3.dot ((⟨1, 0, 0⟩ : Vec3) - ⟨0, 0, 0⟩) ((⟨1, 1, 0⟩ : Vec3) - ⟨0, 1, 0⟩) = 1 := by
    simp [Vec3.dot]
  rw [h1, h2, h3]
  norm_num

/-- Witness for C7 at a concrete triangle. -/
theorem C7_witness :
    vtkTriangle.ComputeNormalDirection ⟨0, 0, 0⟩ ⟨1, 0, 0⟩ ⟨0, 1, 0⟩ =
      Vec3.cross ((⟨0, 1, 0⟩ : Vec3) - ⟨1, 0, 0⟩) ((⟨0, 0, 0⟩ : Vec3) - ⟨1, 0, 0⟩) :=
  C7_computeNormalDirection_is_cross ⟨0, 0, 0⟩ ⟨1, 0, 0⟩ ⟨0, 1, 0⟩

/-- Witness for C10 at a concrete prior contents of the output array. -/
theorem C10_witness :
    (vtkTriangle.GetParametricCenter ⟨9, 9, 9⟩).1.z = 0 :=
  (C10_getParametricCenter ⟨9, 9, 9⟩ ⟨0, 0, 0⟩).2.1

end VTK
